import Mathlib

/-!
Verification development for the nucypher operator-node core.

Each section shallowly embeds one Python module of the repository and proves
(or refutes) the frozen claims about it.  Machine integers are `Nat`, Python
bytes are `List Nat`, Python dictionaries are association lists managed only
through insert/lookup helpers, fallible Python code returns `Except`.
External collaborators (the `nucypher_core` Rust library, the web3 client,
JSON/base64 codecs) are parameters of the embedded functions, constrained
only by the interface properties the spec assigns to them.
-/

/-! ## Section 1: `nucypher/policy/conditions/lingo.py`

`Operator` wraps the string `'and'` / `'or'`.  A `ReencryptionCondition`
leaf lives in files outside `src/` (`base.py`, `evm.py`); a leaf is modelled
by an identifier, and its `verify` outcome by an oracle `verify : Nat → Bool`
(the boolean component of the `(result, value)` pair `verify` returns).
Any other Python object in the conditions list is `LingoItem.other`.
-/

inductive LOp where
  | opAnd
  | opOr
deriving DecidableEq, Repr

inductive LingoItem where
  | cond (id : Nat)
  | op (o : LOp)
  | other
deriving DecidableEq, Repr

def LingoItem.isCondI : LingoItem → Bool
  | .cond _ => true
  | _ => false

def LingoItem.isOpI : LingoItem → Bool
  | .op _ => true
  | _ => false

/-- `ConditionLingo._validate`, inner loop: `for index, element in enumerate(lingo)`,
even index must be a `ReencryptionCondition`, odd index must be an `Operator`. -/
def validateAt (i : Nat) : List LingoItem → Except String Unit
  | [] => .ok ()
  | e :: rest =>
    if i % 2 = 0 then
      match e with
      | .cond _ => validateAt (i + 1) rest
      | _ => .error "element must be a condition"
    else
      match e with
      | .op _ => validateAt (i + 1) rest
      | _ => .error "element must be an operator"

/-- `ConditionLingo._validate`: rejects even-length lists, then checks the
alternation; `ConditionLingo.__init__` runs exactly this check. -/
def lingoValidate (lingo : List LingoItem) : Except String Unit :=
  if lingo.length % 2 = 0 then
    .error "conditions must be odd length, ever other element being an operator"
  else
    validateAt 0 lingo

/-- Structural view of a valid tail: a list of (operator, condition) pairs. -/
def opCondPairs : List LingoItem → Bool
  | [] => true
  | .op _ :: .cond _ :: rest => opCondPairs rest
  | _ => false

/-- Structural view of a valid conditions list: a leaf followed by
(operator, leaf) pairs. -/
def wellFormedLingo : List LingoItem → Bool
  | .cond _ :: rest => opCondPairs rest
  | _ => false

/-- Tokens of the string `ConditionLingo.eval` builds:
`' '.join(str(e) for e in data)` where `data` yields booleans and operators. -/
inductive Token where
  | bool (b : Bool)
  | op (o : LOp)
deriving DecidableEq, Repr

/-- `ConditionLingo.__process`: yields `condition.verify(...)`'s boolean result
for each leaf, the operator itself for operators, and raises `TypeError` on
anything else.  The generator is consumed in full by the `' '.join` in `eval`,
so every leaf is verified (no short-circuit at the leaf level). -/
def processItems (verify : Nat → Bool) : List LingoItem → Except String (List Token)
  | [] => .ok []
  | .cond i :: rest =>
    (processItems verify rest).map (fun ts => Token.bool (verify i) :: ts)
  | .op o :: rest =>
    (processItems verify rest).map (fun ts => Token.op o :: ts)
  | .other :: _ => .error "Unrecognized type for ConditionLingo"

/-- The leaf ids on which `verify` is invoked while the `' '.join` in
`ConditionLingo.eval` consumes the `__process` generator: every leaf up to a
`TypeError`, regardless of the truth values already produced. -/
def processCalls : List LingoItem → List Nat
  | [] => []
  | .cond i :: rest => i :: processCalls rest
  | .op _ :: rest => processCalls rest
  | .other :: _ => []

/-- All leaf ids of a conditions list, in order. -/
def leafIds (lingo : List LingoItem) : List Nat :=
  lingo.filterMap (fun it => match it with | .cond i => some i | _ => none)

/-- Python `eval` of the joined token string `'A1 op1 A2 ...'`, where
`and` binds tighter than `or` (grammar `or_test = and_test ('or' and_test)*`):
`accOr` is the disjunction of the completed `and`-chains, `accAnd` the chain
being read.  Returns `none` on a malformed expression (`SyntaxError`). -/
def evalOrAnd : Bool → Bool → List Token → Option Bool
  | accOr, accAnd, [] => some (accOr || accAnd)
  | accOr, accAnd, .op .opAnd :: .bool c :: rest => evalOrAnd accOr (accAnd && c) rest
  | accOr, accAnd, .op .opOr :: .bool c :: rest => evalOrAnd (accOr || accAnd) c rest
  | _, _, _ => none

/-- `ConditionLingo.__eval`: Python `eval` applied to the joined token string. -/
def pyEvalTokens : List Token → Option Bool
  | .bool b :: rest => evalOrAnd false b rest
  | _ => none

inductive EvalResult where
  | ok
  | failed
  | error (msg : String)
deriving DecidableEq, Repr

/-- `ConditionLingo.eval`: consume `__process` in full to build the eval
string, evaluate it with Python `eval`, raise `Failed` if the value is falsy,
otherwise return `True`. -/
def lingoEval (verify : Nat → Bool) (lingo : List LingoItem) : EvalResult :=
  match processItems verify lingo with
  | .error m => .error m
  | .ok ts =>
    match pyEvalTokens ts with
    | none => .error "eval: invalid syntax"
    | some true => .ok
    | some false => .failed

/-- Reference semantics with Python precedence: fold the alternating tail,
accumulating `and`-chains and splitting at `or` (so `and` binds tighter). -/
def altValue (verify : Nat → Bool) : Bool → List LingoItem → Bool
  | b, .op .opAnd :: .cond i :: rest => altValue verify (b && verify i) rest
  | b, .op .opOr :: .cond i :: rest => b || altValue verify (verify i) rest
  | b, _ => b

/-- Reference semantics of a whole conditions list under Python precedence. -/
def lingoAltSemantics (verify : Nat → Bool) : List LingoItem → Bool
  | .cond i :: rest => altValue verify (verify i) rest
  | _ => false

/-- Modelled from the spec: "Combine leaves via the operator tree using
short-circuit `and`/`or`.  The tree has no precedence; it is a flat
alternation read left-to-right."  Evaluates left-to-right with no precedence
and short-circuits leaf evaluation; returns the value and the list of leaves
actually evaluated.  Written from the spec's words only, to compare with the
code's `eval`. -/
def specFlatStep (verify : Nat → Bool) : Bool → List Nat → List LingoItem →
    Option (Bool × List Nat)
  | acc, calls, [] => some (acc, calls)
  | acc, calls, .op .opAnd :: .cond i :: rest =>
    if acc then specFlatStep verify (verify i) (calls ++ [i]) rest
    else specFlatStep verify false calls rest
  | acc, calls, .op .opOr :: .cond i :: rest =>
    if acc then specFlatStep verify true calls rest
    else specFlatStep verify (verify i) (calls ++ [i]) rest
  | _, _, _ => none

/-- Modelled from the spec: flat left-to-right short-circuit evaluation of a
conditions list (see `specFlatStep`). -/
def specFlatEval (verify : Nat → Bool) : List LingoItem → Option (Bool × List Nat)
  | .cond i :: rest => specFlatStep verify (verify i) [i] rest
  | _ => none

/-! ### Lemmas about `_validate` -/

theorem validateAt_cond (k c : Nat) (rest : List LingoItem) :
    validateAt k (.cond c :: rest) =
      if k % 2 = 0 then validateAt (k + 1) rest
      else .error "element must be an operator" := rfl

theorem validateAt_op (k : Nat) (o : LOp) (rest : List LingoItem) :
    validateAt k (.op o :: rest) =
      if k % 2 = 0 then .error "element must be a condition"
      else validateAt (k + 1) rest := rfl

theorem validateAt_other (k : Nat) (rest : List LingoItem) :
    validateAt k (.other :: rest) =
      if k % 2 = 0 then .error "element must be a condition"
      else .error "element must be an operator" := rfl

theorem validateAt_add_two : ∀ (i : Nat) (l : List LingoItem),
    validateAt (i + 2) l = validateAt i l
  | _, [] => rfl
  | i, e :: rest => by
    have ih : validateAt (i + 2 + 1) rest = validateAt (i + 1) rest := by
      rw [show i + 2 + 1 = i + 1 + 2 from rfl, validateAt_add_two (i + 1) rest]
    have hmod : (i + 2) % 2 = i % 2 := Nat.add_mod_right i 2
    cases e with
    | cond c => rw [validateAt_cond, validateAt_cond, hmod, ih]
    | op o => rw [validateAt_op, validateAt_op, hmod, ih]
    | other => rw [validateAt_other, validateAt_other, hmod]

theorem validateAt_ok_iff : ∀ (k : Nat) (l : List LingoItem),
    validateAt k l = .ok () ↔
      ∀ i, i < l.length →
        ((k + i) % 2 = 0 → (l.getD i .other).isCondI = true) ∧
        ((k + i) % 2 = 1 → (l.getD i .other).isOpI = true)
  | k, [] => by simp [validateAt]
  | k, e :: rest => by
    have ih := validateAt_ok_iff (k + 1) rest
    have hstep : validateAt (k + 1) rest = .ok () →
        ∀ i, i < (e :: rest).length → 1 ≤ i →
          ((k + i) % 2 = 0 → ((e :: rest).getD i .other).isCondI = true) ∧
          ((k + i) % 2 = 1 → ((e :: rest).getD i .other).isOpI = true) := by
      intro hok i hi h1
      obtain ⟨j, rfl⟩ : ∃ j, i = j + 1 := ⟨i - 1, by omega⟩
      have hrec := (ih.mp hok) j (by simpa using Nat.lt_of_succ_lt_succ hi)
      have harith : k + 1 + j = k + (j + 1) := by omega
      simpa [List.getD_cons_succ, harith] using hrec
    have hback : (∀ i, i < (e :: rest).length →
          ((k + i) % 2 = 0 → ((e :: rest).getD i .other).isCondI = true) ∧
          ((k + i) % 2 = 1 → ((e :: rest).getD i .other).isOpI = true)) →
        validateAt (k + 1) rest = .ok () := by
      intro hall
      refine ih.mpr (fun i hi => ?_)
      have hrec := hall (i + 1) (by simpa using Nat.succ_lt_succ hi)
      have harith : k + (i + 1) = k + 1 + i := by omega
      simpa [List.getD_cons_succ, harith] using hrec
    by_cases hk : k % 2 = 0
    · cases e with
      | cond c =>
        rw [validateAt_cond, if_pos hk]
        constructor
        · intro hok i hi
          rcases Nat.eq_zero_or_pos i with h0 | h1
          · subst h0
            exact ⟨fun _ => rfl, fun h1 => by omega⟩
          · exact hstep hok i hi h1
        · exact hback
      | op o =>
        rw [validateAt_op, if_pos hk]
        constructor
        · intro h; exact absurd h (by simp)
        · intro hall
          exfalso
          have := (hall 0 (by simp)).1 (by simpa using hk)
          simp [LingoItem.isCondI] at this
      | other =>
        rw [validateAt_other, if_pos hk]
        constructor
        · intro h; exact absurd h (by simp)
        · intro hall
          exfalso
          have := (hall 0 (by simp)).1 (by simpa using hk)
          simp [LingoItem.isCondI] at this
    · cases e with
      | op o =>
        rw [validateAt_op, if_neg hk]
        constructor
        · intro hok i hi
          rcases Nat.eq_zero_or_pos i with h0 | h1
          · subst h0
            exact ⟨fun h0 => by omega, fun _ => rfl⟩
          · exact hstep hok i hi h1
        · exact hback
      | cond c =>
        rw [validateAt_cond, if_neg hk]
        constructor
        · intro h; exact absurd h (by simp)
        · intro hall
          exfalso
          have := (hall 0 (by simp)).2 (by omega)
          simp [LingoItem.isOpI] at this
      | other =>
        rw [validateAt_other, if_neg hk]
        constructor
        · intro h; exact absurd h (by simp)
        · intro hall
          exfalso
          have := (hall 0 (by simp)).2 (by omega)
          simp [LingoItem.isOpI] at this

theorem validateAt_one_pairs : ∀ l : List LingoItem,
    validateAt 1 l = .ok () → l.length % 2 = 0 → opCondPairs l = true
  | [], _, _ => rfl
  | [_], _, hlen => by simp at hlen
  | e1 :: e2 :: rest, hok, hlen => by
    cases e1 with
    | op o =>
      rw [validateAt_op, if_neg (by decide : ¬((1:Nat) % 2 = 0))] at hok
      cases e2 with
      | cond c =>
        rw [validateAt_cond, if_pos (by decide : ((2:Nat)) % 2 = 0)] at hok
        have h3 : validateAt 3 rest = .ok () := hok
        rw [show (3 : Nat) = 1 + 2 from rfl, validateAt_add_two] at h3
        have hl : rest.length % 2 = 0 := by
          simp only [List.length_cons] at hlen; omega
        simpa [opCondPairs] using validateAt_one_pairs rest h3 hl
      | op o2 =>
        rw [validateAt_op, if_pos (by decide : ((2:Nat)) % 2 = 0)] at hok
        exact absurd hok (by simp)
      | other =>
        rw [validateAt_other, if_pos (by decide : ((2:Nat)) % 2 = 0)] at hok
        exact absurd hok (by simp)
    | cond c =>
      rw [validateAt_cond, if_neg (by decide : ¬((1:Nat) % 2 = 0))] at hok
      exact absurd hok (by simp)
    | other =>
      rw [validateAt_other, if_neg (by decide : ¬((1:Nat) % 2 = 0))] at hok
      exact absurd hok (by simp)

theorem lingoValidate_ok_shape (lingo : List LingoItem)
    (h : lingoValidate lingo = .ok ()) : wellFormedLingo lingo = true := by
  by_cases hlen : lingo.length % 2 = 0
  · unfold lingoValidate at h
    rw [if_pos hlen] at h
    exact absurd h (by simp)
  · unfold lingoValidate at h
    rw [if_neg hlen] at h
    cases lingo with
    | nil => simp at hlen
    | cons e rest =>
      cases e with
      | cond c =>
        rw [validateAt_cond, if_pos (by decide : ((0:Nat)) % 2 = 0)] at h
        have hl : rest.length % 2 = 0 := by
          simp only [List.length_cons] at hlen; omega
        simpa [wellFormedLingo] using validateAt_one_pairs rest h hl
      | op o =>
        rw [validateAt_op, if_pos (by decide : ((0:Nat)) % 2 = 0)] at h
        exact absurd h (by simp)
      | other =>
        rw [validateAt_other, if_pos (by decide : ((0:Nat)) % 2 = 0)] at h
        exact absurd h (by simp)

/-- Induction over valid `(operator, condition)` pair tails. -/
theorem pairsInd {P : List LingoItem → Prop} (h0 : P [])
    (hstep : ∀ o i t, opCondPairs t = true → P t → P (.op o :: .cond i :: t)) :
    ∀ t, opCondPairs t = true → P t
  | [], _ => h0
  | .op o :: .cond i :: t, h =>
    hstep o i t (by simpa [opCondPairs] using h)
      (pairsInd h0 hstep t (by simpa [opCondPairs] using h))
  | .cond _ :: _, h => absurd h (by simp [opCondPairs])
  | .other :: _, h => absurd h (by simp [opCondPairs])
  | [.op _], h => absurd h (by simp [opCondPairs])
  | .op _ :: .op _ :: _, h => absurd h (by simp [opCondPairs])
  | .op _ :: .other :: _, h => absurd h (by simp [opCondPairs])

/-- The token a validated lingo element turns into (`str(e)` in the join). -/
def tokOf (verify : Nat → Bool) : LingoItem → Token
  | .cond i => .bool (verify i)
  | .op o => .op o
  | .other => .bool false

theorem pairs_processItems (verify : Nat → Bool) (t : List LingoItem)
    (h : opCondPairs t = true) :
    processItems verify t = .ok (t.map (tokOf verify)) := by
  refine pairsInd (P := fun t =>
    processItems verify t = .ok (t.map (tokOf verify))) ?_ ?_ t h
  · simp [processItems]
  · intro o i t' _ ih
    simp [processItems, tokOf, ih, Except.map]

theorem pairs_processCalls (t : List LingoItem) (h : opCondPairs t = true) :
    processCalls t = leafIds t := by
  refine pairsInd (P := fun t => processCalls t = leafIds t) ?_ ?_ t h
  · simp [processCalls, leafIds]
  · intro o i t' _ ih
    simp only [processCalls, leafIds, List.filterMap_cons] at ih ⊢
    simp [ih]

theorem pairs_evalOrAnd (verify : Nat → Bool) (t : List LingoItem)
    (h : opCondPairs t = true) :
    ∀ accOr accAnd, evalOrAnd accOr accAnd (t.map (tokOf verify))
      = some (accOr || altValue verify accAnd t) := by
  refine pairsInd (P := fun t => ∀ accOr accAnd,
    evalOrAnd accOr accAnd (t.map (tokOf verify))
      = some (accOr || altValue verify accAnd t)) ?_ ?_ t h
  · intro accOr accAnd
    simp [evalOrAnd, altValue]
  · intro o i t' _ ih accOr accAnd
    cases o with
    | opAnd =>
      simp only [List.map_cons, tokOf, evalOrAnd, altValue]
      exact ih accOr (accAnd && verify i)
    | opOr =>
      simp only [List.map_cons, tokOf, evalOrAnd, altValue]
      rw [ih (accOr || accAnd) (verify i)]
      simp [Bool.or_assoc]

/-! ### Claims C8 and C2 -/

/-- C8: constructing a `ConditionLingo` from a list succeeds iff the list has
odd length and strictly alternates condition leaf / operator (even indices
are conditions, odd indices are operators); any other shape, the empty list
included, raises a validation error. -/
theorem claim_C8_validate_iff (lingo : List LingoItem) :
    lingoValidate lingo = .ok () ↔
      (lingo.length % 2 = 1 ∧
        ∀ i, i < lingo.length →
          (i % 2 = 0 → (lingo.getD i .other).isCondI = true) ∧
          (i % 2 = 1 → (lingo.getD i .other).isOpI = true)) := by
  unfold lingoValidate
  by_cases h : lingo.length % 2 = 0
  · rw [if_pos h]
    constructor
    · intro hh; exact absurd hh (by simp)
    · rintro ⟨h1, _⟩; omega
  · rw [if_neg h, validateAt_ok_iff 0]
    constructor
    · intro hall
      exact ⟨by omega, fun i hi => by simpa using hall i hi⟩
    · rintro ⟨_, hall⟩ i hi
      simpa using hall i hi

/-- C2 as frozen is false on the code: on `[a, or, b, and, c]` with
`a = True, b = False, c = False`, `ConditionLingo.eval` returns `True`
(Python `eval` gives `and` precedence over `or`), while the claim's flat
left-to-right short-circuit reading yields `False` — and the claim's
reading would skip leaf 1, while the code verifies every leaf
(`__process` is consumed in full by the string join). -/
theorem claim_C2_counterexample :
    lingoValidate [.cond 0, .op .opOr, .cond 1, .op .opAnd, .cond 2] = .ok () ∧
    lingoEval (fun n => n == 0)
      [.cond 0, .op .opOr, .cond 1, .op .opAnd, .cond 2] = .ok ∧
    specFlatEval (fun n => n == 0)
      [.cond 0, .op .opOr, .cond 1, .op .opAnd, .cond 2] = some (false, [0, 2]) ∧
    processCalls [.cond 0, .op .opOr, .cond 1, .op .opAnd, .cond 2]
      = [0, 1, 2] := by
  refine ⟨by rfl, by rfl, by decide, by decide⟩

/-- C2 amended: for every well-formed condition lingo list,
`ConditionLingo.eval` evaluates every leaf (the operator string is built
from all leaf results before `eval` runs, so no leaf is skipped), and
combines the results with Python's boolean operators, `and` binding
tighter than `or`; eval returns `True` when the combined value is true and
raises `Failed` otherwise. -/
theorem claim_C2_eval_python_precedence (verify : Nat → Bool)
    (lingo : List LingoItem) (h : lingoValidate lingo = .ok ()) :
    processCalls lingo = leafIds lingo ∧
    lingoEval verify lingo =
      (if lingoAltSemantics verify lingo then EvalResult.ok
       else EvalResult.failed) := by
  have hw := lingoValidate_ok_shape lingo h
  cases lingo with
  | nil => simp [wellFormedLingo] at hw
  | cons e rest =>
    cases e with
    | cond i =>
      have hp : opCondPairs rest = true := by simpa [wellFormedLingo] using hw
      constructor
      · simp [processCalls, leafIds, List.filterMap_cons,
          pairs_processCalls rest hp]
      · unfold lingoEval
        rw [show processItems verify (.cond i :: rest)
              = .ok (Token.bool (verify i) :: rest.map (tokOf verify)) from by
            simp [processItems, pairs_processItems verify rest hp, Except.map]]
        show (match evalOrAnd false (verify i) (rest.map (tokOf verify)) with
          | none => EvalResult.error "eval: invalid syntax"
          | some true => EvalResult.ok
          | some false => EvalResult.failed) = _
        rw [pairs_evalOrAnd verify rest hp false (verify i)]
        simp only [Bool.false_or, lingoAltSemantics]
        by_cases hv : altValue verify (verify i) rest = true
        · simp [hv]
        · have hv' : altValue verify (verify i) rest = false := by simpa using hv
          simp [hv']
    | op o => simp [wellFormedLingo] at hw
    | other => simp [wellFormedLingo] at hw

/-- Witness for `claim_C2_eval_python_precedence` at the concrete list
`[cond 0, and, cond 1]` with `verify 0 = true`, `verify 1 = false`. -/
theorem claim_C2_eval_python_precedence_witness :
    lingoValidate [.cond 0, .op .opAnd, .cond 1] = .ok () ∧
    (processCalls [.cond 0, .op .opAnd, .cond 1]
        = leafIds [.cond 0, .op .opAnd, .cond 1] ∧
      lingoEval (fun n => n == 0) [.cond 0, .op .opAnd, .cond 1] =
        (if lingoAltSemantics (fun n => n == 0) [.cond 0, .op .opAnd, .cond 1]
         then EvalResult.ok else EvalResult.failed)) :=
  ⟨by rfl, claim_C2_eval_python_precedence (fun n => n == 0)
    [.cond 0, .op .opAnd, .cond 1] (by rfl)⟩

/-! ## Section 2: `nucypher/core.py` (`BoltOnConditions` and subclasses)

Python `bytes` values are `List Nat`.  The delimiter `_DELIMITER = b'0xBC'`
is the four ASCII bytes of the characters `0`, `x`, `B`, `C`.  The wrapped
`nucypher_core` Rust classes are external to this repository and appear as a
`CoreCodec` parameter; `ContractCondition.from_bytes` and the JSON/base64
lingo codecs live in files outside `src/` and are parameters as well.
-/

inductive PyErr where
  | valueError
  | nameError
  | keyError
  | attributeError
  | otherExc
deriving DecidableEq, Repr

/-- The four bytes of `b'0xBC'`. -/
def DELIM : List Nat := [48, 120, 66, 67]

/-- Whether a byte string starts with the delimiter `b'0xBC'`. -/
def isDelimHead : List Nat → Bool
  | 48 :: 120 :: 66 :: 67 :: _ => true
  | _ => false

/-- Python `cls._DELIMITER in data`: some position starts the delimiter. -/
def containsDelim : List Nat → Bool
  | [] => false
  | x :: xs => isDelimHead (x :: xs) || containsDelim xs

/-- Python `data.split(cls._DELIMITER)`: split at every (non-overlapping,
left-to-right) occurrence of the delimiter; `acc` holds the bytes of the
current part in reverse. -/
def pySplitAux : List Nat → List Nat → List (List Nat)
  | acc, 48 :: 120 :: 66 :: 67 :: rest => acc.reverse :: pySplitAux [] rest
  | acc, x :: xs => pySplitAux (x :: acc) xs
  | acc, [] => [acc.reverse]

def pySplit (data : List Nat) : List (List Nat) :=
  pySplitAux [] data

/-- The tuple unpacking `data, condition_bytes = data.split(cls._DELIMITER)`:
raises `ValueError` unless the split produced exactly two parts. -/
def pySplit2 (data : List Nat) : Except PyErr (List Nat × List Nat) :=
  match pySplit data with
  | [a, b] => .ok (a, b)
  | _ => .error .valueError

/-- `BoltOnConditions._parse`. -/
def boltParse (data : List Nat) : Except PyErr (List Nat × List Nat) :=
  if containsDelim data then pySplit2 data
  else .ok (data, [])

/-- The serialization interface of a wrapped `nucypher_core` class
(`_CORE_CLASS.__bytes__` / `_CORE_CLASS.from_bytes`), external to this
repository. -/
structure CoreCodec (Core : Type) where
  toBytes : Core → List Nat
  fromBytes : List Nat → Except PyErr Core

/-- `MessageKit` (also any plain `BoltOnConditions`): a wrapped core
instance plus optional bolt-on conditions. -/
structure MessageKit (Core Cond : Type) where
  core_instance : Core
  conditions : Option Cond
deriving DecidableEq, Repr

/-- `BoltOnConditions.__bytes__`: core bytes, then, when conditions are
present, the delimiter followed by the conditions' bytes. -/
def mkBytes {Core Cond : Type} (codec : CoreCodec Core)
    (condBytes : Cond → List Nat) (mk : MessageKit Core Cond) : List Nat :=
  match mk.conditions with
  | some c => codec.toBytes mk.core_instance ++ DELIM ++ condBytes c
  | none => codec.toBytes mk.core_instance

/-- `BoltOnConditions.from_bytes`: when the delimiter is present, split and
parse the condition part with `ContractCondition.from_bytes` (`parseCond`,
external to `src/`); then rebuild via
`cls(core_instance=core_instance, decryption_condition=condition)`.
`__init__` has no `decryption_condition` parameter: the keyword lands in
`**kwargs`, which is only used when no `core_instance` is given, so the
parsed condition is dropped and `self.conditions` remains `None`. -/
def mkFromBytes {Core Cond : Type} (codec : CoreCodec Core)
    (parseCond : List Nat → Except PyErr Cond) (data : List Nat) :
    Except PyErr (MessageKit Core Cond) :=
  if containsDelim data then do
    let (core_data, condition_bytes) ← boltParse data
    let _condition ← parseCond condition_bytes
    let core ← codec.fromBytes core_data
    .ok { core_instance := core, conditions := none }
  else do
    let core ← codec.fromBytes data
    .ok { core_instance := core, conditions := none }

/-- `ReencryptionRequest`: wrapped core instance plus one optional
`ConditionLingo` per capsule (`context` is not serialized by
`__bytes__`/`from_bytes` and is omitted). -/
structure ReencRequest (Core Lingo : Type) where
  core_instance : Core
  lingos : List (Option Lingo)
deriving DecidableEq, Repr

/-- `ReencryptionRequest.__bytes__`: when the lingos tuple is truthy
(non-empty), append the delimiter and
`base64.b64encode(json.dumps([l.to_list() if l else None ...]))`
(`encodeLingos`, built from stdlib json/base64 plus `to_list`). -/
def rrBytes {Core Lingo : Type} (codec : CoreCodec Core)
    (encodeLingos : List (Option Lingo) → List Nat)
    (rr : ReencRequest Core Lingo) : List Nat :=
  if rr.lingos.isEmpty then codec.toBytes rr.core_instance
  else codec.toBytes rr.core_instance ++ DELIM ++ encodeLingos rr.lingos

/-- `ReencryptionRequest.from_bytes`: when the delimiter is present, split,
decode the payload (`json.loads(base64.b64decode(...))` followed by
`ConditionLingo.from_list(lb) if lb else None` — `decodeLingos`), parse the
core bytes, and build the request.  When the delimiter is absent the `if`
body never runs, the core bytes are still parsed, and the final
`cls(core_instance=..., lingos=lingos)` references the local `lingos`,
which was never assigned: Python raises `NameError`. -/
def rrFromBytes {Core Lingo : Type} (codec : CoreCodec Core)
    (decodeLingos : List Nat → Except PyErr (List (Option Lingo)))
    (data : List Nat) : Except PyErr (ReencRequest Core Lingo) :=
  if containsDelim data then do
    let (core_data, lingos_bytes) ← boltParse data
    let lingos ← decodeLingos lingos_bytes
    let core ← codec.fromBytes core_data
    .ok { core_instance := core, lingos := lingos }
  else do
    let _core ← codec.fromBytes data
    .error .nameError

/-- The identity codec: a conforming stand-in instance for the external
`nucypher_core` serialization in closed (concrete) statements. -/
def idCodec : CoreCodec (List Nat) where
  toBytes := id
  fromBytes := fun b => .ok b

/-! ### Delimiter scanning lemmas -/

theorem isDelimHead_four (x a b c : Nat) (l : List Nat) :
    isDelimHead (x :: a :: b :: c :: l) =
      (decide (x = 48) && decide (a = 120) && decide (b = 66) &&
        decide (c = 67)) := by
  rw [isDelimHead.eq_def]
  split
  · rename_i rest heq
    injection heq with h1 heq; injection heq with h2 heq
    injection heq with h3 heq; injection heq with h4 _
    subst h1; subst h2; subst h3; subst h4
    simp
  · rename_i hne
    by_cases hx : x = 48 <;> by_cases ha : a = 120 <;>
      by_cases hb : b = 66 <;> by_cases hc : c = 67 <;>
      simp_all

theorem pySplitAux_delim (acc rest : List Nat) :
    pySplitAux acc (48 :: 120 :: 66 :: 67 :: rest)
      = acc.reverse :: pySplitAux [] rest := rfl

theorem containsDelim_cons (x : Nat) (xs : List Nat) :
    containsDelim (x :: xs) = (isDelimHead (x :: xs) || containsDelim xs) := rfl

theorem pySplitAux_cons_not_delim (acc : List Nat) (x : Nat) (xs : List Nat)
    (h : isDelimHead (x :: xs) = false) :
    pySplitAux acc (x :: xs) = pySplitAux (x :: acc) xs := by
  rw [pySplitAux.eq_def]
  split
  · rename_i rest heq
    rw [heq, isDelimHead_four] at h
    simp at h
  · rename_i y ys hno heq
    injection heq with h1 h2
    subst h1; subst h2
    rfl
  · rename_i heq
    simp at heq

theorem pySplitAux_no_delim : ∀ (l acc : List Nat),
    containsDelim l = false → pySplitAux acc l = [acc.reverse ++ l]
  | [], acc, _ => by simp [pySplitAux]
  | x :: xs, acc, h => by
    rw [containsDelim_cons] at h
    obtain ⟨hd, hxs⟩ : isDelimHead (x :: xs) = false ∧ containsDelim xs = false :=
      by simpa using h
    rw [pySplitAux_cons_not_delim acc x xs hd,
      pySplitAux_no_delim xs (x :: acc) hxs]
    simp

theorem isDelimHead_junction : ∀ (x : Nat) (core payload : List Nat),
    isDelimHead (x :: core) = false →
    isDelimHead (x :: (core ++ DELIM ++ payload)) = false
  | x, [], p, _ => by
    show isDelimHead (x :: 48 :: 120 :: 66 :: 67 :: p) = false
    rw [isDelimHead_four]
    simp
  | x, [a], p, _ => by
    show isDelimHead (x :: a :: 48 :: 120 :: 66 :: 67 :: p) = false
    rw [isDelimHead_four]
    simp
  | x, [a, b], p, _ => by
    show isDelimHead (x :: a :: b :: 48 :: 120 :: 66 :: 67 :: p) = false
    rw [isDelimHead_four]
    simp
  | x, a :: b :: c :: core', p, h => by
    show isDelimHead (x :: a :: b :: c :: (core' ++ DELIM ++ p)) = false
    rw [isDelimHead_four]
    rw [isDelimHead_four] at h
    exact h

theorem pySplitAux_junction : ∀ (core payload acc : List Nat),
    containsDelim core = false → containsDelim payload = false →
    pySplitAux acc (core ++ DELIM ++ payload) = [acc.reverse ++ core, payload]
  | [], p, acc, _, hp => by
    show pySplitAux acc (48 :: 120 :: 66 :: 67 :: p) = _
    rw [pySplitAux_delim, pySplitAux_no_delim p [] hp]
    simp
  | x :: core', p, acc, hc, hp => by
    rw [containsDelim_cons] at hc
    obtain ⟨hd, hc'⟩ : isDelimHead (x :: core') = false ∧ containsDelim core' = false :=
      by simpa using hc
    have hd2 := isDelimHead_junction x core' p hd
    show pySplitAux acc (x :: (core' ++ DELIM ++ p)) = _
    rw [pySplitAux_cons_not_delim acc x _ hd2,
      pySplitAux_junction core' p (x :: acc) hc' hp]
    simp

theorem containsDelim_append_delim : ∀ (core payload : List Nat),
    containsDelim (core ++ DELIM ++ payload) = true
  | [], _ => rfl
  | x :: core', p => by
    show containsDelim (x :: (core' ++ DELIM ++ p)) = true
    rw [containsDelim_cons, containsDelim_append_delim core' p]
    simp

theorem pySplit_junction (core payload : List Nat)
    (hc : containsDelim core = false) (hp : containsDelim payload = false) :
    pySplit (core ++ DELIM ++ payload) = [core, payload] := by
  unfold pySplit
  rw [pySplitAux_junction core payload [] hc hp]
  simp

theorem exceptBind_ok {ε α β : Type} (x : Except ε α) (f : α → Except ε β)
    (b : β) : (x >>= f) = .ok b ↔ ∃ a, x = .ok a ∧ f a = .ok b := by
  cases x <;> simp [Bind.bind, Except.bind]

/-! ### Claims C1 and C9 -/

/-- C1 as frozen is false on the code: a `MessageKit` carrying conditions
([7] here, with core bytes [1,2,3] under a conforming codec) deserializes
with its conditions dropped (`from_bytes` hands the parsed condition to
`cls(...)` as the unknown keyword `decryption_condition`), so re-serializing
yields the bare core bytes, not the original `core ++ 0xBC ++ conditions`. -/
theorem claim_C1_counterexample :
    mkBytes idCodec id
        (⟨[1, 2, 3], some [7]⟩ : MessageKit (List Nat) (List Nat))
      = [1, 2, 3] ++ DELIM ++ [7] ∧
    mkFromBytes idCodec Except.ok
        (mkBytes idCodec id
          (⟨[1, 2, 3], some [7]⟩ : MessageKit (List Nat) (List Nat)))
      = .ok ⟨[1, 2, 3], none⟩ ∧
    (mkFromBytes idCodec Except.ok
        (mkBytes idCodec id
          (⟨[1, 2, 3], some [7]⟩ : MessageKit (List Nat) (List Nat)))).map
        (mkBytes idCodec id)
      = .ok [1, 2, 3] ∧
    [1, 2, 3] ≠ [1, 2, 3] ++ DELIM ++ [7] := by
  refine ⟨rfl, rfl, rfl, by decide⟩

/-- C1 amended: round-trip `bytes(from_bytes(bytes(x))) == bytes(x)` holds
for a `MessageKit` without conditions, and for a `ReencryptionRequest` with
a non-empty lingos tuple provided the delimiter `b'0xBC'` occurs neither in
the core bytes nor in the base64 conditions payload and the external codecs
round-trip; in every successful `BoltOnConditions.from_bytes` the parsed
conditions are dropped (`conditions` is `None`), so a `MessageKit` carrying
conditions does not round-trip, and a conditions-free `ReencryptionRequest`
does not deserialize at all (`NameError`, claim C9). -/
theorem claim_C1_roundtrip_amended {Core Cond Lingo : Type}
    (codec : CoreCodec Core) (parseCond : List Nat → Except PyErr Cond)
    (condBytes : Cond → List Nat)
    (encodeLingos : List (Option Lingo) → List Nat)
    (decodeLingos : List Nat → Except PyErr (List (Option Lingo))) :
    (∀ mk : MessageKit Core Cond, mk.conditions = none →
      containsDelim (codec.toBytes mk.core_instance) = false →
      codec.fromBytes (codec.toBytes mk.core_instance) = .ok mk.core_instance →
      (mkFromBytes codec parseCond (mkBytes codec condBytes mk)).map
          (mkBytes codec condBytes)
        = .ok (mkBytes codec condBytes mk)) ∧
    (∀ rr : ReencRequest Core Lingo, rr.lingos ≠ [] →
      containsDelim (codec.toBytes rr.core_instance) = false →
      containsDelim (encodeLingos rr.lingos) = false →
      codec.fromBytes (codec.toBytes rr.core_instance) = .ok rr.core_instance →
      decodeLingos (encodeLingos rr.lingos) = .ok rr.lingos →
      rrFromBytes codec decodeLingos (rrBytes codec encodeLingos rr) = .ok rr) ∧
    (∀ (data : List Nat) (mk2 : MessageKit Core Cond),
      mkFromBytes codec parseCond data = .ok mk2 → mk2.conditions = none) := by
  refine ⟨?_, ?_, ?_⟩
  · rintro ⟨core, conds⟩ hnone hnd hrt
    simp only at hnone
    subst hnone
    have hb : mkBytes codec condBytes ⟨core, none⟩ = codec.toBytes core := rfl
    rw [hb]
    unfold mkFromBytes
    rw [if_neg (by simp [hnd])]
    simp only at hnd hrt
    rw [show (do
        let c ← codec.fromBytes (codec.toBytes core)
        Except.ok ({ core_instance := c, conditions := none } :
          MessageKit Core Cond)) =
      (codec.fromBytes (codec.toBytes core) >>= fun c =>
        Except.ok { core_instance := c, conditions := none }) from rfl]
    rw [hrt]
    simp [Bind.bind, Except.bind, Except.map, hb]
  · rintro ⟨core, lingos⟩ hne hnd hnp hrt hdec
    simp only at hne hnd hnp hrt hdec
    have hb : rrBytes codec encodeLingos ⟨core, lingos⟩
        = codec.toBytes core ++ DELIM ++ encodeLingos lingos := by
      unfold rrBytes
      rw [if_neg (by simpa using hne)]
    rw [hb]
    unfold rrFromBytes
    rw [if_pos (containsDelim_append_delim _ _)]
    have hsplit : boltParse (codec.toBytes core ++ DELIM ++ encodeLingos lingos)
        = .ok (codec.toBytes core, encodeLingos lingos) := by
      unfold boltParse
      rw [if_pos (containsDelim_append_delim _ _)]
      unfold pySplit2
      rw [pySplit_junction _ _ hnd hnp]
    rw [show (do
        let x ← boltParse (codec.toBytes core ++ DELIM ++ encodeLingos lingos)
        match x with
        | (core_data, lingos_bytes) => do
          let ls ← decodeLingos lingos_bytes
          let c ← codec.fromBytes core_data
          Except.ok ({ core_instance := c, lingos := ls } :
            ReencRequest Core Lingo)) =
      (boltParse (codec.toBytes core ++ DELIM ++ encodeLingos lingos) >>=
        fun x => match x with
        | (core_data, lingos_bytes) =>
          decodeLingos lingos_bytes >>= fun ls =>
            codec.fromBytes core_data >>= fun c =>
              Except.ok { core_instance := c, lingos := ls }) from rfl]
    rw [hsplit]
    simp [Bind.bind, Except.bind, hdec, hrt]
  · intro data mk2 h
    unfold mkFromBytes at h
    split at h
    · obtain ⟨⟨cd, cb⟩, h1, h⟩ := (exceptBind_ok _ _ _).mp h
      obtain ⟨c, h2, h⟩ := (exceptBind_ok _ _ _).mp h
      obtain ⟨co, h3, h⟩ := (exceptBind_ok _ _ _).mp h
      injection h with h
      rw [show mk2 = { core_instance := co, conditions := none } from h.symm]
    · obtain ⟨co, h3, h⟩ := (exceptBind_ok _ _ _).mp h
      injection h with h
      rw [show mk2 = { core_instance := co, conditions := none } from h.symm]

/-- Witness for `claim_C1_roundtrip_amended`. -/
theorem claim_C1_roundtrip_amended_witness :
    (mkFromBytes idCodec Except.ok
        (mkBytes idCodec id
          (⟨[1, 2, 3], none⟩ : MessageKit (List Nat) (List Nat)))).map
        (mkBytes idCodec id)
      = .ok (mkBytes idCodec id
          (⟨[1, 2, 3], none⟩ : MessageKit (List Nat) (List Nat))) ∧
    rrFromBytes idCodec
        (fun b => if b = [9] then .ok [some 5] else .error .valueError)
        (rrBytes idCodec (fun _ => [9])
          (⟨[5, 6], [some 5]⟩ : ReencRequest (List Nat) Nat))
      = .ok ⟨[5, 6], [some 5]⟩ :=
  ⟨(claim_C1_roundtrip_amended idCodec Except.ok id (fun _ => [9])
      (fun b => if b = [9] then .ok [some 5] else .error .valueError)).1
      ⟨[1, 2, 3], none⟩ rfl (by rfl) rfl,
   (claim_C1_roundtrip_amended idCodec Except.ok id (fun _ => [9])
      (fun b => if b = [9] then .ok [some 5] else .error .valueError)).2.1
      ⟨[5, 6], [some 5]⟩ (by simp) (by rfl) (by rfl) rfl (by rfl)⟩

/-- C9: `ReencryptionRequest.from_bytes` never succeeds on input without the
delimiter `b'0xBC'`; when the core bytes themselves parse, the failure is
precisely the `NameError` from the unassigned local `lingos`, so a
conditions-free request can never be deserialized by this constructor. -/
theorem claim_C9_rr_frombytes_nameerror {Core Lingo : Type}
    (codec : CoreCodec Core)
    (decodeLingos : List Nat → Except PyErr (List (Option Lingo)))
    (data : List Nat) (h : containsDelim data = false) :
    (∀ rr : ReencRequest Core Lingo,
      rrFromBytes codec decodeLingos data ≠ .ok rr) ∧
    (∀ core, codec.fromBytes data = .ok core →
      rrFromBytes codec decodeLingos data = .error .nameError) := by
  unfold rrFromBytes
  rw [if_neg (by simp [h])]
  constructor
  · intro rr hok
    rcases hcore : codec.fromBytes data with e | c <;>
      simp [hcore, Bind.bind, Except.bind] at hok
  · intro core hcore
    simp [hcore, Bind.bind, Except.bind]

/-- Witness for `claim_C9_rr_frombytes_nameerror` on the delimiter-free
input `[1, 2, 3]`. -/
theorem claim_C9_rr_frombytes_nameerror_witness :
    containsDelim [1, 2, 3] = false ∧
    ((∀ rr : ReencRequest (List Nat) Nat,
        rrFromBytes idCodec (fun _ => Except.ok ([] : List (Option Nat)))
          [1, 2, 3] ≠ .ok rr) ∧
      (∀ core, idCodec.fromBytes [1, 2, 3] = .ok core →
        rrFromBytes idCodec (fun _ => Except.ok ([] : List (Option Nat)))
          [1, 2, 3] = .error .nameError)) :=
  ⟨rfl, claim_C9_rr_frombytes_nameerror idCodec
    (fun _ => Except.ok ([] : List (Option Nat))) [1, 2, 3] rfl⟩

/-! ## Section 3: `nucypher/network/server.py`, the `/reencrypt` view

The handler body after `ReencryptionRequest.from_bytes` succeeded.  HRACs,
capsules, kfrags and lingos are identifiers (`Nat`); the node's
`_decrypt_kfrag`, the per-lingo `eval`, `_reencrypt` and the datastore write
are oracles, since they live in other modules (crypto powers, datastore).
The handler result is `Except PyErr (status, body)`: `.error` is an
exception escaping the view function (Flask then answers 500), `.ok` an
explicit `Response`.
-/

inductive DecErr where
  | decryptionFailed
  | invalidSignature
  | otherExc
deriving DecidableEq, Repr

inductive CondOutcome where
  | ok
  | requiredInput
  | failed
  | otherExc
deriving DecidableEq, Repr

structure ReencReqM where
  hrac : Nat
  capsules : List Nat
  lingos : List (Option Nat)
  encrypted_kfrag : Nat
deriving DecidableEq, Repr

/-- The per-packet condition loop: for each `(lingo, capsule)` with a truthy
lingo, `lingo.eval(**context)`; `RequiredInput → 403`, `Failed → 403`, any
other exception `→ 500`; first failure returns.  `none` means the loop
finished and every packet was appended to `capsules_to_process`. -/
def evalPackets (evalCond : Nat → CondOutcome) :
    List (Option Nat × Nat) → Option Nat
  | [] => none
  | (none, _) :: rest => evalPackets evalCond rest
  | (some lid, _) :: rest =>
    match evalCond lid with
    | .ok => evalPackets evalCond rest
    | .requiredInput => some 403
    | .failed => some 403
    | .otherExc => some 500

/-- The `/reencrypt` view body: revocation check (401), kfrag decryption
(`DecryptionFailed → 403`, `InvalidSignature → 401`, other → 400),
per-capsule condition evaluation, `_reencrypt`, datastore write (no
try/except around it), then the signed response with status 200. -/
def reencryptHandler (revoked : List Nat)
    (decryptKfrag : Nat → Except DecErr Nat)
    (evalCond : Nat → CondOutcome)
    (reencryptOp : Nat → List Nat → Except PyErr (List Nat))
    (persist : Except PyErr Unit)
    (req : ReencReqM) : Except PyErr (Nat × Option (List Nat)) :=
  let packets := req.lingos.zip req.capsules
  if req.hrac ∈ revoked then .ok (401, none)
  else
    match decryptKfrag req.encrypted_kfrag with
    | .error .decryptionFailed => .ok (403, none)
    | .error .invalidSignature => .ok (401, none)
    | .error .otherExc => .ok (400, none)
    | .ok verified_kfrag =>
      match evalPackets evalCond packets with
      | some status => .ok (status, none)
      | none =>
        match reencryptOp verified_kfrag (packets.map Prod.snd) with
        | .error e => .error e
        | .ok respBytes =>
          match persist with
          | .error e => .error e
          | .ok () => .ok (200, some respBytes)

/-! ### Claims C3 and C6 -/

/-- C3: if the request's HRAC is revoked the response is 401 and the kfrag
is not decrypted (the handler result does not depend on the decryption
oracle at all); otherwise a kfrag-decryption failure maps
`DecryptionFailed → 403`, `InvalidSignature → 401`, any other error → 400. -/
theorem claim_C3_reencrypt_statuses (revoked : List Nat)
    (decryptKfrag : Nat → Except DecErr Nat) (evalCond : Nat → CondOutcome)
    (reencryptOp : Nat → List Nat → Except PyErr (List Nat))
    (persist : Except PyErr Unit) (req : ReencReqM) :
    (req.hrac ∈ revoked →
      reencryptHandler revoked decryptKfrag evalCond reencryptOp persist req
        = .ok (401, none) ∧
      ∀ decrypt2 : Nat → Except DecErr Nat,
        reencryptHandler revoked decrypt2 evalCond reencryptOp persist req
          = reencryptHandler revoked decryptKfrag evalCond reencryptOp
              persist req) ∧
    (req.hrac ∉ revoked →
      (decryptKfrag req.encrypted_kfrag = .error .decryptionFailed →
        reencryptHandler revoked decryptKfrag evalCond reencryptOp persist req
          = .ok (403, none)) ∧
      (decryptKfrag req.encrypted_kfrag = .error .invalidSignature →
        reencryptHandler revoked decryptKfrag evalCond reencryptOp persist req
          = .ok (401, none)) ∧
      (decryptKfrag req.encrypted_kfrag = .error .otherExc →
        reencryptHandler revoked decryptKfrag evalCond reencryptOp persist req
          = .ok (400, none))) := by
  constructor
  · intro hrev
    unfold reencryptHandler
    rw [if_pos hrev]
    exact ⟨rfl, fun d2 => by rw [if_pos hrev]⟩
  · intro hrev
    refine ⟨fun hd => ?_, fun hd => ?_, fun hd => ?_⟩ <;>
      (unfold reencryptHandler; rw [if_neg hrev, hd])

/-- Witness for `claim_C3_reencrypt_statuses`: a revoked HRAC answers 401
whatever the decryption does, and an unrevoked one maps
`DecryptionFailed` to 403. -/
theorem claim_C3_reencrypt_statuses_witness :
    ((1 : Nat) ∈ [1] ∧
      reencryptHandler [1] (fun _ => .ok 0) (fun _ => .ok)
          (fun _ _ => .ok []) (.ok ()) ⟨1, [4], [none], 9⟩
        = .ok (401, none)) ∧
    ((2 : Nat) ∉ [1] ∧
      reencryptHandler [1] (fun _ => .error .decryptionFailed) (fun _ => .ok)
          (fun _ _ => .ok []) (.ok ()) ⟨2, [4], [none], 9⟩
        = .ok (403, none)) :=
  ⟨⟨by decide,
    ((claim_C3_reencrypt_statuses [1] (fun _ => .ok 0) (fun _ => .ok)
        (fun _ _ => .ok []) (.ok ()) ⟨1, [4], [none], 9⟩).1
      (by decide)).1⟩,
   ⟨by decide,
    ((claim_C3_reencrypt_statuses [1] (fun _ => .error .decryptionFailed)
        (fun _ => .ok) (fun _ _ => .ok []) (.ok ()) ⟨2, [4], [none], 9⟩).2
      (by decide)).1 rfl⟩⟩

/-- C6 as frozen is false on the code: with a revocation-free request, a
successful decryption, empty conditions and a successful `_reencrypt`, a
datastore failure while persisting the audit record escapes the view
function (there is no try/except around `datastore.describe`), so the
signed response is not returned; with an intact datastore the very same
request answers 200 with the response bytes. -/
theorem claim_C6_counterexample :
    reencryptHandler [] (fun _ => .ok 7) (fun _ => .ok)
        (fun _ _ => .ok [9]) (.error .otherExc) ⟨3, [4], [none], 8⟩
      = .error .otherExc ∧
    reencryptHandler [] (fun _ => .ok 7) (fun _ => .ok)
        (fun _ _ => .ok [9]) (.ok ()) ⟨3, [4], [none], 8⟩
      = .ok (200, some [9]) := ⟨rfl, rfl⟩

/-- C6 amended: for a successfully reencrypted request, the signed response
is returned exactly when persisting the audit record succeeds; a persistence
failure propagates out of the handler and blocks the response. -/
theorem claim_C6_persist_blocks_response (revoked : List Nat)
    (decryptKfrag : Nat → Except DecErr Nat) (evalCond : Nat → CondOutcome)
    (reencryptOp : Nat → List Nat → Except PyErr (List Nat))
    (persist : Except PyErr Unit) (req : ReencReqM) (kfrag : Nat)
    (body : List Nat)
    (hrev : req.hrac ∉ revoked)
    (hdec : decryptKfrag req.encrypted_kfrag = .ok kfrag)
    (hcond : evalPackets evalCond (req.lingos.zip req.capsules) = none)
    (hre : reencryptOp kfrag ((req.lingos.zip req.capsules).map Prod.snd)
      = .ok body) :
    reencryptHandler revoked decryptKfrag evalCond reencryptOp persist req
      = (match persist with
         | .ok () => .ok (200, some body)
         | .error e => .error e) := by
  unfold reencryptHandler
  simp only [if_neg hrev, hdec, hcond, hre]
  cases persist with
  | ok u => rfl
  | error e => rfl

/-- Witness for `claim_C6_persist_blocks_response` with a failing datastore. -/
theorem claim_C6_persist_blocks_response_witness :
    (3 : Nat) ∉ ([] : List Nat) ∧
    reencryptHandler [] (fun _ => .ok 7) (fun _ => .ok)
        (fun _ _ => .ok [5, 6]) (.error .keyError) ⟨3, [4, 5], [none, none], 8⟩
      = .error .keyError :=
  ⟨by decide,
   claim_C6_persist_blocks_response [] (fun _ => .ok 7) (fun _ => .ok)
     (fun _ _ => .ok [5, 6]) (.error .keyError) ⟨3, [4, 5], [none, none], 8⟩
     7 [5, 6] (by decide) rfl rfl rfl⟩

/-! ## Section 4: `nucypher/network/retrieval.py`

Addresses, capsules, cfrags and encrypted kfrags are `Nat` identifiers.
Python dictionaries are association lists managed through
`dictInsert`/`dictLookup` (overwrite on existing key, insertion order
preserved), Python sets are duplicate-free lists grown with `setAdd`.
`random.shuffle` is nondeterministic, so plan construction takes the
shuffled destination order as an argument (a permutation of the treasure
map's keys).  The network and the learner are oracles.
-/

def dictLookup {α β : Type} [DecidableEq α] : List (α × β) → α → Option β
  | [], _ => none
  | (k, v) :: rest, key => if k = key then some v else dictLookup rest key

def dictInsert {α β : Type} [DecidableEq α] :
    List (α × β) → α → β → List (α × β)
  | [], key, val => [(key, val)]
  | (k, v) :: rest, key, val =>
    if k = key then (k, val) :: rest else (k, v) :: dictInsert rest key val

def dictGetD {α β : Type} [DecidableEq α] (d : List (α × β)) (key : α)
    (dflt : β) : β :=
  (dictLookup d key).getD dflt

/-- Python `set.add` on a duplicate-free list. -/
def setAdd {α : Type} [DecidableEq α] (s : List α) (a : α) : List α :=
  if a ∈ s then s else s ++ [a]

/-- The slice of the rust `RetrievalKit` the planner reads: capsule,
conditions, previously queried addresses. -/
structure RKit where
  capsule : Nat
  conditions : Option Nat
  queried_addresses : List Nat
deriving DecidableEq, Repr

/-- The slice of `TreasureMap` the planner reads: `threshold` and the
`destinations` dict (address → encrypted kfrag). -/
structure TMap where
  threshold : Nat
  destinations : List (Nat × Nat)
deriving DecidableEq, Repr

structure RetrievalWorkOrder where
  ursula_address : Nat
  capsules : List Nat
  lingo : List (Option Nat)
deriving DecidableEq, Repr

structure RetrievalPlan where
  capsules : List Nat
  conditions : List (Option Nat)
  threshold : Nat
  results : List (Nat × List (Nat × Nat))
  errors : List (Nat × List (Nat × String))
  queried_addresses : List (Nat × List Nat)
  processed_capsules : List (Nat × List Nat)
  pick_order : List Nat
deriving DecidableEq, Repr

/-- `RetrievalPlan.__init__`: seed the per-capsule dicts from the kits,
invert the queried addresses into `_processed_capsules`, and build the pick
order: the shuffled destinations with every previously queried address moved
to the tail.  `shuffled` is the outcome of `random.shuffle` on
`list(treasure_map.destinations)`. -/
def buildPlan (tmap : TMap) (kits : List RKit) (shuffled : List Nat) :
    RetrievalPlan :=
  let last := kits.foldl (fun s rk => rk.queried_addresses.foldl setAdd s) []
  { capsules := kits.map (·.capsule)
    conditions := kits.map (·.conditions)
    threshold := tmap.threshold
    results := kits.foldl (fun d rk => dictInsert d rk.capsule []) []
    errors := kits.foldl (fun d rk => dictInsert d rk.capsule []) []
    queried_addresses := kits.foldl
      (fun d rk => dictInsert d rk.capsule (rk.queried_addresses.foldl setAdd []))
      []
    processed_capsules := kits.foldl
      (fun d rk => rk.queried_addresses.foldl
        (fun d2 a => dictInsert d2 a (setAdd (dictGetD d2 a []) rk.capsule)) d)
      []
    pick_order := shuffled.filter (fun u => !(decide (u ∈ last))) ++ last }

/-- `RetrievalPlan.get_work_order`, the `while self._ursulas_pick_order`
loop: pop addresses from the front until one yields a non-empty packet list
(capsules not yet processed by that address and still below threshold);
raise `RuntimeError("No Ursulas left")` when the pick order drains. -/
def getWorkOrderLoop (capsules : List Nat) (conditions : List (Option Nat))
    (threshold : Nat) (queried : List (Nat × List Nat))
    (processed : List (Nat × List Nat)) :
    List Nat → Except String (RetrievalWorkOrder × List Nat)
  | [] => .error "No Ursulas left"
  | u :: rest =>
    let packets := (capsules.zip conditions).filter (fun p =>
      !(decide (p.1 ∈ dictGetD processed u [])) &&
        decide ((dictGetD queried p.1 []).length < threshold))
    if packets.length > 0 then
      .ok (⟨u, packets.map Prod.fst, packets.map Prod.snd⟩, rest)
    else
      getWorkOrderLoop capsules conditions threshold queried processed rest

def get_work_order (plan : RetrievalPlan) :
    Except String (RetrievalWorkOrder × RetrievalPlan) :=
  match getWorkOrderLoop plan.capsules plan.conditions plan.threshold
      plan.queried_addresses plan.processed_capsules plan.pick_order with
  | .error e => .error e
  | .ok (wo, rest) => .ok (wo, { plan with pick_order := rest })

/-- `RetrievalPlan.update`: record each returned cfrag, marking the address
as queried for the capsule and the capsule as processed by the address. -/
def planUpdate (plan : RetrievalPlan) (wo : RetrievalWorkOrder)
    (cfrags : List (Nat × Nat)) : RetrievalPlan :=
  cfrags.foldl (fun p cf =>
    { p with
      queried_addresses := dictInsert p.queried_addresses cf.1
        (setAdd (dictGetD p.queried_addresses cf.1 []) wo.ursula_address)
      processed_capsules := dictInsert p.processed_capsules wo.ursula_address
        (setAdd (dictGetD p.processed_capsules wo.ursula_address []) cf.1)
      results := dictInsert p.results cf.1
        (dictInsert (dictGetD p.results cf.1 []) wo.ursula_address cf.2) })
    plan

/-- `RetrievalPlan.update_errors`. -/
def planUpdateErrors (plan : RetrievalPlan) (wo : RetrievalWorkOrder)
    (addr : Nat) (msg : String) : RetrievalPlan :=
  wo.capsules.foldl (fun p c =>
    { p with
      errors := dictInsert p.errors c
        (dictInsert (dictGetD p.errors c []) addr msg) })
    plan

/-- `RetrievalPlan.is_complete`. -/
def is_complete (plan : RetrievalPlan) : Bool :=
  plan.pick_order.isEmpty ||
    plan.queried_addresses.all (fun e => decide (plan.threshold ≤ e.2.length))

inductive LoopOut where
  | done (plan : RetrievalPlan)
  | error (msg : String)
  | keyErr
  | fuelOut (plan : RetrievalPlan)
deriving DecidableEq, Repr

/-- The `while not retrieval_plan.is_complete()` loop of
`RetrievalClient.retrieve_cfrags`.  `known` is membership in
`self._learner.known_nodes`; `net` is `_request_reencryption` (an
`Except` error is any exception there, handled by `update_errors`);
`dictLookup dest` is `treasure_map.destinations[...]` (a missing key
raises, `LoopOut.keyErr`).  The returned list records the addresses a
reencryption request was sent to, in order.  Recursion is fuelled; each
iteration pops at least one pick-order entry, so
`pick_order.length + 1` fuel is never exhausted
(`retrieveLoop_no_fuelOut`). -/
def retrieveLoop (known : Nat → Bool)
    (net : Nat → List Nat → Except String (List (Nat × Nat)))
    (dest : List (Nat × Nat)) :
    RetrievalPlan → Nat → List Nat → List Nat × LoopOut
  | plan, 0, sent => (sent, .fuelOut plan)
  | plan, fuel + 1, sent =>
    if is_complete plan then (sent, .done plan)
    else
      match get_work_order plan with
      | .error e => (sent, .error e)
      | .ok (wo, plan') =>
        if !(known wo.ursula_address) then
          retrieveLoop known net dest plan' fuel sent
        else
          match dictLookup dest wo.ursula_address with
          | none => (sent, .keyErr)
          | some _ekfrag =>
            match net wo.ursula_address wo.capsules with
            | .error msg =>
              retrieveLoop known net dest
                (planUpdateErrors plan' wo wo.ursula_address msg) fuel
                (sent ++ [wo.ursula_address])
            | .ok cfrags =>
              retrieveLoop known net dest (planUpdate plan' wo cfrags) fuel
                (sent ++ [wo.ursula_address])

/-- `RetrievalClient.retrieve_cfrags` (planning part). -/
def retrieve_cfrags (known : Nat → Bool)
    (net : Nat → List Nat → Except String (List (Nat × Nat)))
    (tmap : TMap) (kits : List RKit) (shuffled : List Nat) :
    List Nat × LoopOut :=
  let plan := buildPlan tmap kits shuffled
  retrieveLoop known net tmap.destinations plan (plan.pick_order.length + 1) []

/-! ### Plan lemmas -/

theorem foldl_preserve {α β γ : Type} (f : α → β → α) (proj : α → γ)
    (h : ∀ a b, proj (f a b) = proj a) :
    ∀ (l : List β) (a : α), proj (List.foldl f a l) = proj a
  | [], _ => rfl
  | b :: t, a => by
    rw [List.foldl_cons, foldl_preserve f proj h t (f a b), h]

theorem planUpdate_pick_order (p : RetrievalPlan) (wo : RetrievalWorkOrder)
    (cfrags : List (Nat × Nat)) :
    (planUpdate p wo cfrags).pick_order = p.pick_order := by
  unfold planUpdate
  refine foldl_preserve _ _ ?_ cfrags p
  intro a b
  rfl

theorem planUpdateErrors_pick_order (p : RetrievalPlan)
    (wo : RetrievalWorkOrder) (addr : Nat) (msg : String) :
    (planUpdateErrors p wo addr msg).pick_order = p.pick_order := by
  unfold planUpdateErrors
  refine foldl_preserve _ _ ?_ wo.capsules p
  intro a b
  rfl

theorem getWorkOrderLoop_shape (capsules : List Nat)
    (conditions : List (Option Nat)) (threshold : Nat)
    (queried processed : List (Nat × List Nat)) :
    ∀ (po rest : List Nat) (wo : RetrievalWorkOrder),
      getWorkOrderLoop capsules conditions threshold queried processed po
        = .ok (wo, rest) →
      ∃ pre, po = pre ++ wo.ursula_address :: rest
  | [], _, _ => by intro h; exact absurd h (by simp [getWorkOrderLoop])
  | u :: tail, rest, wo => by
    intro h
    rw [getWorkOrderLoop] at h
    split at h
    · injection h with h
      injection h with h1 h2
      refine ⟨[], ?_⟩
      rw [← h1, ← h2]
      simp
    · obtain ⟨pre, hpre⟩ :=
        getWorkOrderLoop_shape capsules conditions threshold queried processed
          tail rest wo h
      exact ⟨u :: pre, by rw [List.cons_append, hpre]⟩

theorem get_work_order_shape (plan plan' : RetrievalPlan)
    (wo : RetrievalWorkOrder) (h : get_work_order plan = .ok (wo, plan')) :
    ∃ pre, plan.pick_order = pre ++ wo.ursula_address :: plan'.pick_order := by
  unfold get_work_order at h
  split at h
  · exact absurd h (by simp)
  · rename_i wo2 rest heq
    injection h with h
    injection h with h1 h2
    obtain ⟨pre, hpre⟩ := getWorkOrderLoop_shape _ _ _ _ _ _ _ _ heq
    refine ⟨pre, ?_⟩
    rw [← h2]
    rw [h1] at hpre
    exact hpre

theorem dictLookup_isSome_mem {β : Type} :
    ∀ (d : List (Nat × β)) (key : Nat),
      (dictLookup d key).isSome = true → key ∈ d.map Prod.fst
  | [], _ => by simp [dictLookup]
  | (k, v) :: rest, key => by
    intro h
    rw [dictLookup] at h
    by_cases hk : k = key
    · simp [hk]
    · rw [if_neg hk] at h
      simp only [List.map_cons, List.mem_cons]
      exact Or.inr (dictLookup_isSome_mem rest key h)

theorem setAdd_nodup {α : Type} [DecidableEq α] (s : List α) (a : α)
    (h : s.Nodup) : (setAdd s a).Nodup := by
  unfold setAdd
  split
  · exact h
  · rename_i hmem
    simp [List.nodup_append, h, hmem]

theorem foldl_setAdd_nodup {α : Type} [DecidableEq α] :
    ∀ (l s : List α), s.Nodup → (l.foldl setAdd s).Nodup
  | [], _, h => h
  | a :: t, s, h => by
    rw [List.foldl_cons]
    exact foldl_setAdd_nodup t (setAdd s a) (setAdd_nodup s a h)

theorem contactLast_nodup :
    ∀ (kits : List RKit) (s : List Nat), s.Nodup →
      (kits.foldl (fun s rk => rk.queried_addresses.foldl setAdd s) s).Nodup
  | [], _, h => h
  | rk :: t, s, h => by
    rw [List.foldl_cons]
    exact contactLast_nodup t _ (foldl_setAdd_nodup rk.queried_addresses s h)

theorem buildPlan_pick_nodup (tmap : TMap) (kits : List RKit)
    (shuffled : List Nat) (h : shuffled.Nodup) :
    (buildPlan tmap kits shuffled).pick_order.Nodup := by
  unfold buildPlan
  simp only
  rw [List.nodup_append]
  refine ⟨h.filter _, contactLast_nodup kits [] (by simp), ?_⟩
  intro a ha hlast
  have := List.of_mem_filter ha
  simp at this
  exact this hlast

/-- Loop invariant of `retrieveLoop`: with a duplicate-free pick order, the
addresses contacted beyond `sent` are pairwise distinct, all drawn from the
plan's pick order, and all present in the destinations dict (the lookup
preceding the request succeeded). -/
theorem retrieveLoop_sent_spec (known : Nat → Bool)
    (net : Nat → List Nat → Except String (List (Nat × Nat)))
    (dest : List (Nat × Nat)) :
    ∀ (fuel : Nat) (plan : RetrievalPlan) (sent : List Nat),
      plan.pick_order.Nodup →
      ∃ extra, (retrieveLoop known net dest plan fuel sent).1 = sent ++ extra ∧
        extra.Nodup ∧
        ∀ a ∈ extra, a ∈ plan.pick_order ∧ (dictLookup dest a).isSome = true
  | 0, plan, sent, _ => ⟨[], by simp [retrieveLoop], by simp, by simp⟩
  | fuel + 1, plan, sent, hnd => by
    rw [retrieveLoop]
    by_cases hc : is_complete plan = true
    · rw [if_pos hc]
      exact ⟨[], by simp, by simp, by simp⟩
    · rw [if_neg hc]
      cases hgw : get_work_order plan with
      | error e =>
        exact ⟨[], by simp, by simp, by simp⟩
      | ok pr =>
        obtain ⟨wo, plan'⟩ := pr
        obtain ⟨pre, hpre⟩ := get_work_order_shape plan plan' wo hgw
        have hnd2 : (wo.ursula_address :: plan'.pick_order).Nodup := by
          rw [hpre] at hnd
          exact hnd.of_append_right
        have hnd' : plan'.pick_order.Nodup := (List.nodup_cons.mp hnd2).2
        have hnotin : wo.ursula_address ∉ plan'.pick_order :=
          (List.nodup_cons.mp hnd2).1
        have hsub : ∀ a ∈ plan'.pick_order, a ∈ plan.pick_order := by
          intro a ha
          rw [hpre]
          simp [ha]
        have hu : wo.ursula_address ∈ plan.pick_order := by
          rw [hpre]
          simp
        cases hk : known wo.ursula_address with
        | false =>
          simp only [hk, Bool.not_false, if_true]
          obtain ⟨extra, hex, hnde, hmem⟩ :=
            retrieveLoop_sent_spec known net dest fuel plan' sent hnd'
          exact ⟨extra, hex, hnde,
            fun a ha => ⟨hsub a (hmem a ha).1, (hmem a ha).2⟩⟩
        | true =>
          simp only [hk, Bool.not_true, if_false]
          cases hd : dictLookup dest wo.ursula_address with
          | none => exact ⟨[], by simp, by simp, by simp⟩
          | some ek =>
            have hds : (dictLookup dest wo.ursula_address).isSome = true := by
              rw [hd]; rfl
            cases hnet : net wo.ursula_address wo.capsules with
            | error msg =>
              dsimp only
              rw [if_neg (by simp)]
              obtain ⟨extra, hex, hnde, hmem⟩ :=
                retrieveLoop_sent_spec known net dest fuel
                  (planUpdateErrors plan' wo wo.ursula_address msg)
                  (sent ++ [wo.ursula_address])
                  (by rw [planUpdateErrors_pick_order]; exact hnd')
              refine ⟨wo.ursula_address :: extra, ?_, ?_, ?_⟩
              · rw [hex]
                simp
              · rw [List.nodup_cons]
                refine ⟨fun hmem2 => ?_, hnde⟩
                have := (hmem _ hmem2).1
                rw [planUpdateErrors_pick_order] at this
                exact hnotin this
              · intro a ha
                rcases List.mem_cons.mp ha with rfl | ha'
                · exact ⟨hu, hds⟩
                · have := hmem a ha'
                  rw [planUpdateErrors_pick_order] at this
                  exact ⟨hsub a this.1, this.2⟩
            | ok cf =>
              dsimp only
              rw [if_neg (by simp)]
              obtain ⟨extra, hex, hnde, hmem⟩ :=
                retrieveLoop_sent_spec known net dest fuel
                  (planUpdate plan' wo cf)
                  (sent ++ [wo.ursula_address])
                  (by rw [planUpdate_pick_order]; exact hnd')
              refine ⟨wo.ursula_address :: extra, ?_, ?_, ?_⟩
              · rw [hex]
                simp
              · rw [List.nodup_cons]
                refine ⟨fun hmem2 => ?_, hnde⟩
                have := (hmem _ hmem2).1
                rw [planUpdate_pick_order] at this
                exact hnotin this
              · intro a ha
                rcases List.mem_cons.mp ha with rfl | ha'
                · exact ⟨hu, hds⟩
                · have := hmem a ha'
                  rw [planUpdate_pick_order] at this
                  exact ⟨hsub a this.1, this.2⟩

/-- `retrieve_cfrags` fuels `retrieveLoop` with `pick_order.length + 1`;
every iteration pops at least one pick-order entry, so the fuel is never
exhausted and the fuelled loop is faithful to the Python `while` loop. -/
theorem retrieveLoop_no_fuelOut (known : Nat → Bool)
    (net : Nat → List Nat → Except String (List (Nat × Nat)))
    (dest : List (Nat × Nat)) :
    ∀ (fuel : Nat) (plan : RetrievalPlan) (sent : List Nat),
      plan.pick_order.length < fuel →
      ∀ p, (retrieveLoop known net dest plan fuel sent).2 ≠ .fuelOut p
  | 0, _, _, h => fun _ => absurd h (Nat.not_lt_zero _)
  | fuel + 1, plan, sent, h => by
    intro p
    rw [retrieveLoop]
    by_cases hc : is_complete plan = true
    · rw [if_pos hc]
      simp
    · rw [if_neg hc]
      cases hgw : get_work_order plan with
      | error e => simp
      | ok pr =>
        obtain ⟨wo, plan'⟩ := pr
        dsimp only
        obtain ⟨pre, hpre⟩ := get_work_order_shape plan plan' wo hgw
        have hlen : plan'.pick_order.length < fuel := by
          rw [hpre] at h
          simp at h
          omega
        cases hk : known wo.ursula_address with
        | false =>
          rw [if_pos (by simp [hk])]
          exact retrieveLoop_no_fuelOut known net dest fuel plan' sent hlen p
        | true =>
          rw [if_neg (by simp [hk])]
          cases hd : dictLookup dest wo.ursula_address with
          | none => simp
          | some ek =>
            dsimp only
            cases hnet : net wo.ursula_address wo.capsules with
            | error msg =>
              dsimp only
              exact retrieveLoop_no_fuelOut known net dest fuel _ _
                (by rw [planUpdateErrors_pick_order]; exact hlen) p
            | ok cf =>
              dsimp only
              exact retrieveLoop_no_fuelOut known net dest fuel _ _
                (by rw [planUpdate_pick_order]; exact hlen) p

/-! ### Claims C4, C5 and C10 -/

/-- C4 as frozen is false on the code: a plan seeded from a retrieval kit
whose `queried_addresses` already has `threshold` entries is complete even
though no cfrag was ever collected (`_results` is empty) and operators
remain in the pick order; `is_complete` counts queried addresses, not
collected cfrags. -/
theorem claim_C4_counterexample :
    is_complete (buildPlan ⟨1, [(1, 10)]⟩ [⟨100, none, [2]⟩] [1]) = true ∧
    (buildPlan ⟨1, [(1, 10)]⟩ [⟨100, none, [2]⟩] [1]).pick_order = [1, 2] ∧
    (buildPlan ⟨1, [(1, 10)]⟩ [⟨100, none, [2]⟩] [1]).threshold = 1 ∧
    dictGetD (buildPlan ⟨1, [(1, 10)]⟩ [⟨100, none, [2]⟩] [1]).results 100 []
      = [] := by
  refine ⟨by decide, by decide, by decide, by decide⟩

/-- C4 amended: `is_complete()` returns true iff the pick order is empty or
every capsule has at least `threshold` *queried addresses* — addresses
recorded in the retrieval kit as previously queried count, whether or not
any cfrag was collected in this plan. -/
theorem claim_C4_is_complete_iff (p : RetrievalPlan) :
    is_complete p = true ↔
      (p.pick_order = [] ∨
        ∀ e ∈ p.queried_addresses, p.threshold ≤ e.2.length) := by
  unfold is_complete
  simp [List.isEmpty_iff, List.all_eq_true]

/-- C5: over a whole run of the retrieval loop, the addresses that receive a
reencryption request are pairwise distinct (no operator is contacted twice
within one plan), all are treasure-map destinations, and so the number of
requests is at most the number of destinations. -/
theorem claim_C5_at_most_once (known : Nat → Bool)
    (net : Nat → List Nat → Except String (List (Nat × Nat)))
    (tmap : TMap) (kits : List RKit) (shuffled : List Nat)
    (hperm : shuffled.Perm (tmap.destinations.map Prod.fst))
    (hnodup : (tmap.destinations.map Prod.fst).Nodup) :
    (retrieve_cfrags known net tmap kits shuffled).1.Nodup ∧
    (∀ a ∈ (retrieve_cfrags known net tmap kits shuffled).1,
      a ∈ tmap.destinations.map Prod.fst) ∧
    (retrieve_cfrags known net tmap kits shuffled).1.length
      ≤ tmap.destinations.length := by
  have hshuf : shuffled.Nodup := hperm.nodup_iff.mpr hnodup
  have hplan := buildPlan_pick_nodup tmap kits shuffled hshuf
  obtain ⟨extra, hex, hnde, hmem⟩ :=
    retrieveLoop_sent_spec known net tmap.destinations
      ((buildPlan tmap kits shuffled).pick_order.length + 1)
      (buildPlan tmap kits shuffled) [] hplan
  have hout : (retrieve_cfrags known net tmap kits shuffled).1 = extra := by
    unfold retrieve_cfrags
    rw [hex]
    simp
  rw [hout]
  have hsub : ∀ a ∈ extra, a ∈ tmap.destinations.map Prod.fst :=
    fun a ha => dictLookup_isSome_mem _ _ (hmem a ha).2
  refine ⟨hnde, hsub, ?_⟩
  have hlen := (List.subperm_of_subset hnde hsub).length_le
  simpa using hlen

/-- Witness for `claim_C5_at_most_once`: two destinations, one fresh
capsule, a healthy network; exactly one request is sent. -/
theorem claim_C5_at_most_once_witness :
    (retrieve_cfrags (fun _ => true) (fun _ _ => .ok [(100, 55)])
        ⟨1, [(1, 10), (2, 20)]⟩ [⟨100, none, []⟩] [1, 2]).1.Nodup ∧
    (∀ a ∈ (retrieve_cfrags (fun _ => true) (fun _ _ => .ok [(100, 55)])
        ⟨1, [(1, 10), (2, 20)]⟩ [⟨100, none, []⟩] [1, 2]).1,
      a ∈ (⟨1, [(1, 10), (2, 20)]⟩ : TMap).destinations.map Prod.fst) ∧
    (retrieve_cfrags (fun _ => true) (fun _ _ => .ok [(100, 55)])
        ⟨1, [(1, 10), (2, 20)]⟩ [⟨100, none, []⟩] [1, 2]).1.length
      ≤ (⟨1, [(1, 10), (2, 20)]⟩ : TMap).destinations.length :=
  claim_C5_at_most_once (fun _ => true) (fun _ _ => .ok [(100, 55)])
    ⟨1, [(1, 10), (2, 20)]⟩ [⟨100, none, []⟩] [1, 2] (by decide) (by decide)

/-- C10: a plan whose retrieval kit pre-seeds queried addresses covering all
destinations, with the threshold still unmet, reports `is_complete() =
false`, yet `get_work_order` drains the pick order without producing a work
order and raises `RuntimeError("No Ursulas left")`; the retrieval loop
aborts with that error. -/
theorem claim_C10_starvation :
    is_complete
        (buildPlan ⟨3, [(1, 10), (2, 20)]⟩ [⟨100, none, [1, 2]⟩] [1, 2])
      = false ∧
    get_work_order
        (buildPlan ⟨3, [(1, 10), (2, 20)]⟩ [⟨100, none, [1, 2]⟩] [1, 2])
      = .error "No Ursulas left" ∧
    retrieve_cfrags (fun _ => true) (fun _ _ => .ok [])
        ⟨3, [(1, 10), (2, 20)]⟩ [⟨100, none, [1, 2]⟩] [1, 2]
      = ([], .error "No Ursulas left") :=
  ⟨by decide, rfl, rfl⟩

/-! ## Section 5: `nucypher/blockchain/eth/token.py`, `WorkTrackerBase`

`__pending` is a dict `block_number → txhash`; the sentinel
`UNTRACKED_PENDING_TRANSACTION` is `none`.  The web3 client is an oracle
record.  `EXPECTED_CONFIRMATION_TIME_IN_SECONDS[gas_strategy]` and
`AVERAGE_BLOCK_TIME_IN_SECONDS` live in modules outside `src/` and are
`Nat` parameters.  Float arithmetic (`* 1.5`) is modelled in `ℚ`, exact for
the integer second counts involved.

Name mangling matters here: inside `class WorkTrackerBase`,
`self.__handle_replacement_commitment` (line 775) resolves to the attribute
`_WorkTrackerBase__handle_replacement_commitment` and
`self.__fire_replacement_commitment` (line 751) to
`_WorkTrackerBase__fire_replacement_commitment`; the class only defines
`_handle_replacement_commitment` and `_fire_replacement_commitment` (single
underscore), so both calls raise `AttributeError` — the embedding returns
`.error .attributeError` at those call sites. -/

structure EthClient where
  block_number : Nat
  getReceipt : Nat → Option Nat
  txCountPending : Nat
  txCountLatest : Nat

def dictRemove {β : Type} (d : List (Nat × β)) (key : Nat) : List (Nat × β) :=
  d.filter (fun e => !(decide (e.1 = key)))

/-- `sorted(pending_transactions)` (insertion sort on the block-number key;
dict keys are unique, so the txhash component never decides). -/
def insertSorted (x : Nat × Option Nat) :
    List (Nat × Option Nat) → List (Nat × Option Nat)
  | [] => [x]
  | y :: ys => if x.1 ≤ y.1 then x :: y :: ys else y :: insertSorted x ys

def sortByKey (l : List (Nat × Option Nat)) : List (Nat × Option Nat) :=
  l.foldr insertSorted []

/-- `WorkTrackerBase.max_confirmation_time`:
`expected_time * (1 + ALLOWED_DEVIATION)` with `ALLOWED_DEVIATION = 0.5`. -/
def max_confirmation_time (expectedConfTime : Nat) : ℚ :=
  (expectedConfTime : ℚ) * (1 + 1 / 2)

/-- The loop of `__track_pending_commitments`: iterate the sorted snapshot;
an `UNTRACKED` marker or a `TransactionNotFound` counts as unmined, a found
receipt deletes the entry from the live dict. -/
def trackLoop (getReceipt : Nat → Option Nat) :
    List (Nat × Option Nat) → List (Nat × Option Nat) → Nat →
    Nat × List (Nat × Option Nat)
  | [], pending, unmined => (unmined, pending)
  | (_, none) :: rest, pending, unmined =>
    trackLoop getReceipt rest pending (unmined + 1)
  | (blk, some tx) :: rest, pending, unmined =>
    match getReceipt tx with
    | none => trackLoop getReceipt rest pending (unmined + 1)
    | some _ => trackLoop getReceipt rest (dictRemove pending blk) unmined

/-- `WorkTrackerBase.__track_pending_commitments` (with
`__commitments_tracker_is_consistent` inlined: inconsistent iff the mempool
holds more transactions than are tracked): returns the truthiness used by
`_do_work` and the updated pending dict. -/
def track_pending_commitments (client : EthClient)
    (pending : List (Nat × Option Nat)) : Bool × List (Nat × Option Nat) :=
  let tracked := trackLoop client.getReceipt (sortByKey pending) pending 0
  let txs_in_mempool := client.txCountPending - client.txCountLatest
  if txs_in_mempool > tracked.2.length then
    (true, dictInsert tracked.2 0 none)
  else
    (!tracked.2.isEmpty, tracked.2)

/-- `WorkTrackerBase._handle_replacement_commitment` as defined (unreachable
from `_do_work`, whose call site names the mangled, undefined attribute).
Its own firing step `self.__fire_replacement_commitment` (line 751) also
names an undefined attribute, so even called directly it raises
`AttributeError` instead of firing the replacement; only the
still-waiting branch returns normally. -/
def handle_replacement_commitment (expectedConfTime avgBlockTime : Nat)
    (current_block_number : Nat) (pending : List (Nat × Option Nat)) :
    Except PyErr Unit :=
  match sortByKey pending with
  | [] => .error .otherExc
  | (blk, txref) :: _ =>
    match txref with
    | none => .error .attributeError
    | some _tx =>
      let wait_time_in_blocks := current_block_number - blk
      let wait_time_in_seconds : ℚ := ((wait_time_in_blocks * avgBlockTime : Nat) : ℚ)
      if wait_time_in_seconds < max_confirmation_time expectedConfTime then
        .ok ()
      else
        .error .attributeError

/-- `WorkTrackerBase._fire_replacement_commitment` as defined (dead code:
no resolvable call site): track the replacement under the current block and
drop the stuck transaction. -/
def fire_replacement_commitment (replacement_txhash : Nat)
    (current_block_number tx_firing_block_number : Nat)
    (pending : List (Nat × Option Nat)) : List (Nat × Option Nat) :=
  dictRemove (dictInsert pending current_block_number (some replacement_txhash))
    tx_firing_block_number

/-- `WorkTrackerBase._do_work`: track pending commitments; when unmined
transactions remain, the call `self.__handle_replacement_commitment(...)`
looks up `_WorkTrackerBase__handle_replacement_commitment`, which the class
does not define, so the tick raises `AttributeError` (the interval update
and everything after never run); otherwise fire one commitment when the
requirement allows.  Returns the pending dict as mutated so far and the
tick's outcome. -/
def do_work (client : EthClient) (prep : Bool) (requirement : Option Bool)
    (finalPrep : Bool) (fireTx : Nat) (pending : List (Nat × Option Nat)) :
    List (Nat × Option Nat) × Except PyErr Unit :=
  let current_block_number := client.block_number
  if prep = false then (pending, .ok ())
  else
    let tracked := track_pending_commitments client pending
    if tracked.1 then
      (tracked.2, .error .attributeError)
    else
      match requirement with
      | some false => (tracked.2, .ok ())
      | _ =>
        if finalPrep = false then (tracked.2, .ok ())
        else (dictInsert tracked.2 current_block_number (some fireTx), .ok ())

/-! ### Receipt-dropping lemmas -/

theorem dictRemove_lookup_self {β : Type} :
    ∀ (d : List (Nat × β)) (key : Nat), dictLookup (dictRemove d key) key = none
  | [], _ => rfl
  | (k, v) :: rest, key => by
    unfold dictRemove
    rw [List.filter_cons]
    by_cases hk : k = key
    · rw [if_neg (by simp [hk])]
      exact dictRemove_lookup_self rest key
    · rw [if_pos (by simp [hk])]
      rw [dictLookup, if_neg hk]
      exact dictRemove_lookup_self rest key

theorem dictRemove_lookup_other {β : Type} :
    ∀ (d : List (Nat × β)) (key other : Nat), key ≠ other →
      dictLookup (dictRemove d key) other = dictLookup d other
  | [], _, _, _ => rfl
  | (k, v) :: rest, key, other, h => by
    unfold dictRemove
    rw [List.filter_cons, dictLookup]
    by_cases hk : k = key
    · rw [if_neg (by simp [hk]), if_neg (by rw [hk]; exact h)]
      exact dictRemove_lookup_other rest key other h
    · rw [if_pos (by simp [hk]), dictLookup]
      by_cases ho : k = other
      · rw [if_pos ho, if_pos ho]
      · rw [if_neg ho, if_neg ho]
        exact dictRemove_lookup_other rest key other h

theorem trackLoop_lookup_none (getReceipt : Nat → Option Nat) :
    ∀ (items pending : List (Nat × Option Nat)) (unmined key : Nat),
      dictLookup pending key = none →
      dictLookup (trackLoop getReceipt items pending unmined).2 key = none
  | [], _, _, _, h => h
  | (_, none) :: rest, pending, unmined, key, h =>
    trackLoop_lookup_none getReceipt rest pending (unmined + 1) key h
  | (blk, some tx) :: rest, pending, unmined, key, h => by
    rw [trackLoop]
    cases getReceipt tx with
    | none => exact trackLoop_lookup_none getReceipt rest pending (unmined + 1) key h
    | some r =>
      refine trackLoop_lookup_none getReceipt rest _ unmined key ?_
      by_cases hb : key = blk
      · rw [hb]
        exact dictRemove_lookup_self pending blk
      · rw [dictRemove_lookup_other pending blk key (fun h2 => hb h2.symm)]
        exact h

theorem dictInsert_lookup_ne {β : Type} :
    ∀ (d : List (Nat × β)) (key : Nat) (v : β) (other : Nat), key ≠ other →
      dictLookup (dictInsert d key v) other = dictLookup d other
  | [], key, v, other, h => by
    simp [dictInsert, dictLookup, h]
  | (k, w) :: rest, key, v, other, h => by
    unfold dictInsert
    by_cases hk : k = key
    · rw [if_pos hk, dictLookup, dictLookup]
      rw [if_neg (by rw [hk]; exact h), if_neg (by rw [hk]; exact h)]
    · rw [if_neg hk, dictLookup, dictLookup]
      by_cases ho : k = other
      · rw [if_pos ho, if_pos ho]
      · rw [if_neg ho, if_neg ho]
        exact dictInsert_lookup_ne rest key v other h

theorem trackLoop_drops_mined (getReceipt : Nat → Option Nat) :
    ∀ (items pending : List (Nat × Option Nat)) (unmined blk tx r : Nat),
      (blk, some tx) ∈ items → getReceipt tx = some r →
      dictLookup (trackLoop getReceipt items pending unmined).2 blk = none
  | [], _, _, _, _, _, hmem, _ => absurd hmem (by simp)
  | (b2, oref) :: rest, pending, unmined, blk, tx, r, hmem, hrec => by
    rcases List.mem_cons.mp hmem with heq | hmem'
    · injection heq with h1 h2
      subst h1
      rw [← h2, trackLoop, hrec]
      exact trackLoop_lookup_none getReceipt rest _ unmined blk
        (dictRemove_lookup_self pending blk)
    · cases oref with
      | none =>
        rw [trackLoop]
        exact trackLoop_drops_mined getReceipt rest pending (unmined + 1)
          blk tx r hmem' hrec
      | some t2 =>
        rw [trackLoop]
        cases hrec2 : getReceipt t2 with
        | none =>
          exact trackLoop_drops_mined getReceipt rest pending (unmined + 1)
            blk tx r hmem' hrec
        | some r2 =>
          exact trackLoop_drops_mined getReceipt rest (dictRemove pending b2)
            unmined blk tx r hmem' hrec

theorem mem_insertSorted (x y : Nat × Option Nat) :
    ∀ l : List (Nat × Option Nat), x ∈ insertSorted y l ↔ x = y ∨ x ∈ l
  | [] => by simp [insertSorted]
  | z :: zs => by
    unfold insertSorted
    by_cases h : y.1 ≤ z.1
    · rw [if_pos h]
      simp [List.mem_cons]
    · rw [if_neg h]
      simp only [List.mem_cons, mem_insertSorted x y zs]
      tauto

theorem sortByKey_mem :
    ∀ (l : List (Nat × Option Nat)) (x : Nat × Option Nat),
      x ∈ l → x ∈ sortByKey l
  | [], x, h => absurd h (by simp)
  | a :: t, x, h => by
    unfold sortByKey
    rw [List.foldr_cons]
    rcases List.mem_cons.mp h with rfl | h'
    · exact (mem_insertSorted x x _).mpr (Or.inl rfl)
    · exact (mem_insertSorted x a _).mpr (Or.inr (sortByKey_mem t x h'))

/-- The first half of claim C7, in general: a pending transaction whose
receipt is found is dropped from the pending dict by
`__track_pending_commitments` (stated for a key other than 0, which the
consistency check may repopulate with a synthetic untracked marker). -/
theorem track_pending_drops_mined (client : EthClient)
    (pending : List (Nat × Option Nat)) (blk tx r : Nat)
    (hmem : (blk, some tx) ∈ pending)
    (hrec : client.getReceipt tx = some r) (hblk : blk ≠ 0) :
    dictLookup (track_pending_commitments client pending).2 blk = none := by
  unfold track_pending_commitments
  have hdrop := trackLoop_drops_mined client.getReceipt (sortByKey pending)
    pending 0 blk tx r (sortByKey_mem pending _ hmem) hrec
  by_cases hc : client.txCountPending - client.txCountLatest >
      (trackLoop client.getReceipt (sortByKey pending) pending 0).2.length
  · rw [if_pos hc]
    rw [dictInsert_lookup_ne _ 0 none blk (fun h => hblk h.symm)]
    exact hdrop
  · rw [if_neg hc]
    exact hdrop

/-- On a tick with unmined pending transactions, `_do_work` ends in the
`AttributeError` from the mangled call, with the pending dict as left by
the tracking pass. -/
theorem do_work_unmined_raises (client : EthClient)
    (requirement : Option Bool) (finalPrep : Bool) (fireTx : Nat)
    (pending : List (Nat × Option Nat))
    (h : (track_pending_commitments client pending).1 = true) :
    do_work client true requirement finalPrep fireTx pending
      = ((track_pending_commitments client pending).2,
          .error .attributeError) := by
  unfold do_work
  rw [if_neg (by simp)]
  rw [if_pos h]

/-! ### Claim C7 -/

/-- C7 at a failing input.  A tick with one stuck pending transaction (fired
at block 0, unmined at block 1000, far past the 90 s maximum confirmation
time of a 60 s gas strategy) ends in `AttributeError` — the call site
`self.__handle_replacement_commitment` names the undefined mangled attribute
`_WorkTrackerBase__handle_replacement_commitment` — leaving the stuck
transaction tracked and firing no replacement.  Receipts found before the
crash are still dropped (second conjunct: the mined block-0 transaction
disappears, the unmined one remains).  Even `_handle_replacement_commitment`
itself, called directly, would raise `AttributeError` at its
`self.__fire_replacement_commitment` call instead of firing (third
conjunct); it returns normally only while the wait is below the maximum
(fourth conjunct). -/
theorem claim_C7_replacement_never_fired :
    do_work ⟨1000, fun _ => none, 1, 0⟩ true none true 99 [(0, some 5)]
      = ([(0, some 5)], .error .attributeError) ∧
    do_work ⟨1000, fun tx => if tx = 5 then some 50 else none, 1, 0⟩
        true none true 99 [(0, some 5), (2, some 6)]
      = ([(2, some 6)], .error .attributeError) ∧
    handle_replacement_commitment 60 14 1000 [(0, some 5)]
      = .error .attributeError ∧
    handle_replacement_commitment 60 14 5 [(0, some 5)] = .ok () := by
  refine ⟨rfl, rfl, ?_, ?_⟩
  · unfold handle_replacement_commitment max_confirmation_time
    norm_num [sortByKey, insertSorted]
  · unfold handle_replacement_commitment max_confirmation_time
    norm_num [sortByKey, insertSorted]
